import Mathlib

/-!
Verification of the DonkeyOps GitHub bot (src/src/index.ts) against its
natural-language specification.  The TypeScript source is shallowly embedded:
strings are Lean `String`s manipulated through their `List Char` data,
JavaScript regular-expression matching is embedded as executable character-list
functions with the same backtracking-existence semantics, and the stateful
GitHub/LLM side effects of the slash-command dispatcher are embedded as a pure
function from an explicit context (comment body, PR-probe result, diff-fetch
result, LLM result) to the list of remote calls the handler issues.
-/

/-- Character classes of JavaScript regular expressions and of
`String.prototype.trim`.  JS `\s` (and the trim set) is WhiteSpace ∪
LineTerminator: TAB, LF, VT, FF, CR, SP, NBSP, the Unicode space separators,
LS, PS and ZWNBSP. -/
def jsIsSpace (c : Char) : Bool :=
  decide (c.toNat = 9) || decide (c.toNat = 10) || decide (c.toNat = 11) ||
  decide (c.toNat = 12) || decide (c.toNat = 13) || decide (c.toNat = 32) ||
  decide (c.toNat = 0xa0) || decide (c.toNat = 0x1680) ||
  (decide (0x2000 ≤ c.toNat) && decide (c.toNat ≤ 0x200a)) ||
  decide (c.toNat = 0x2028) || decide (c.toNat = 0x2029) ||
  decide (c.toNat = 0x202f) || decide (c.toNat = 0x205f) ||
  decide (c.toNat = 0x3000) || decide (c.toNat = 0xfeff)

/-- JS line terminators: LF, CR, LS, PS.  The regex `.` (without the `s` flag)
matches every character except these. -/
def isLineTerm (c : Char) : Bool :=
  decide (c.toNat = 10) || decide (c.toNat = 13) ||
  decide (c.toNat = 0x2028) || decide (c.toNat = 0x2029)

/-- A character matched by the regex `.` (no `s` flag). -/
def isDotChar (c : Char) : Bool := !(isLineTerm c)

/-- A character matched by the regex `\d`, i.e. an ASCII digit. -/
def isDigitChar (c : Char) : Bool :=
  decide (48 ≤ c.toNat) && decide (c.toNat ≤ 57)

/-- An ASCII letter (the regex class `[a-zA-Z]`). -/
def isAsciiLetter (c : Char) : Bool :=
  (decide (65 ≤ c.toNat) && decide (c.toNat ≤ 90)) ||
  (decide (97 ≤ c.toNat) && decide (c.toNat ≤ 122))

/-- A character of the commit-type capture group `[a-zA-Z\-]`. -/
def isTypeChar (c : Char) : Bool := isAsciiLetter c || decide (c.toNat = 45)

/-- Drop trailing JS whitespace (the right half of `String.prototype.trim`). -/
def trimRightL (cs : List Char) : List Char :=
  (cs.reverse.dropWhile jsIsSpace).reverse

/-- Model of JS `String.prototype.trim` on character lists. -/
def jsTrimL (cs : List Char) : List Char :=
  trimRightL (cs.dropWhile jsIsSpace)

/-- Model of JS `String.prototype.trim`. -/
def jsTrim (s : String) : String := ⟨jsTrimL s.data⟩

/-- Model of JS `String.prototype.toLowerCase` (ASCII case mapping). -/
def lowerStr (s : String) : String := ⟨s.data.map Char.toLower⟩

/-- Model of JS `String.prototype.split(sep)` for a one-character separator. -/
def splitOnChar (sep : Char) : List Char → List (List Char)
  | [] => [[]]
  | c :: cs =>
    match splitOnChar sep cs with
    | [] => [[]]
    | g :: gs => if c = sep then [] :: g :: gs else (c :: g) :: gs

/-- Model of JS `String.prototype.startsWith` on character lists. -/
def startsWithSeq : List Char → List Char → Bool
  | _, [] => true
  | [], _ :: _ => false
  | a :: as, b :: bs => a = b && startsWithSeq as bs

/-- Model of JS `String.prototype.includes` on character lists: `sub` occurs
contiguously somewhere in `hay`. -/
def containsSeq (hay sub : List Char) : Bool :=
  match hay with
  | [] => sub.isEmpty
  | _ :: t => startsWithSeq hay sub || containsSeq t sub

/-- Model of JS `Array.prototype.includes` for string arrays. -/
def listHas (xs : List String) (x : String) : Bool :=
  xs.any (fun y => y == x)

/-- Model of JS `Array.prototype.join(sep)`. -/
def joinSep (sep : String) : List String → String
  | [] => ""
  | [s] => s
  | s :: rest => s ++ sep ++ joinSep sep rest

/-- Model of JS `String.prototype.replace(c, '')` with a single-character
string pattern: only the first occurrence, wherever it is, is removed. -/
def removeFirstOcc (c : Char) : List Char → List Char
  | [] => []
  | x :: xs => if x = c then xs else x :: removeFirstOcc c xs

/-- String-level wrapper of `removeFirstOcc` for the `@` sign, as used by the
assign/unassign slash commands (`args[0].replace('@', '')`). -/
def stripFirstAt (s : String) : String := ⟨removeFirstOcc '@' s.data⟩

/-- Default valid types for conventional commits (source `DEFAULT_TYPE_ENUM`). -/
def DEFAULT_TYPE_ENUM : List String :=
  ["build", "chore", "ci", "docs", "feat", "fix", "perf", "refactor",
   "revert", "style", "test"]

/-- Default valid components (source `DEFAULT_VALID_COMPONENTS`). -/
def DEFAULT_VALID_COMPONENTS : List String :=
  ["Testing", "Clients", "Core", "WebUI", "Database", "API", "Documentation",
   "Infrastructure", "Security", "Performance", "Monitoring", "Deployment",
   "CI/CD", "Dependencies", "Bug Fix", "Feature", "Enhancement",
   "Core & Internals", "Refactoring", "Docs"]

/-- Default commit format template (source `DEFAULT_COMMIT_FORMAT`). -/
def DEFAULT_COMMIT_FORMAT : String :=
  "<type>(<component>): <short_message> #<issue_number>"

/-- Parsed `conventional_commits` section of `.donkeyops.yml`.  Every field is
optional, mirroring the TypeScript interface `DonkeyOpsConfig`. -/
structure ConventionalCommitsConfig where
  type_enum : Option (List String)
  valid_components : Option (List String)
  require_issue_number : Option Bool
  commit_format : Option String
  enabled : Option Bool
deriving DecidableEq

/-- Parsed `pr_labeling` section of `.donkeyops.yml`. -/
structure PrLabelingConfig where
  enabled : Option Bool
deriving DecidableEq

/-- Parsed repository configuration (TypeScript interface `DonkeyOpsConfig`). -/
structure DonkeyOpsConfig where
  conventional_commits : Option ConventionalCommitsConfig
  pr_labeling : Option PrLabelingConfig
deriving DecidableEq

/-- JS `a || b` for an array-valued `a`: an array is always truthy (even when
empty), so only an absent field falls back to the default. -/
def jsOrList (v : Option (List String)) (d : List String) : List String :=
  match v with
  | none => d
  | some l => l

/-- JS `a || b` for a string-valued `a`: the empty string is falsy, so both an
absent and a present-but-empty field fall back to the default. -/
def jsOrString (v : Option String) (d : String) : String :=
  match v with
  | none => d
  | some s => if s = "" then d else s

/-- Effective type enum: `config.conventional_commits?.type_enum || DEFAULT_TYPE_ENUM`
(source `checkCommitsInPR`). -/
def effectiveTypeEnum (cfg : DonkeyOpsConfig) : List String :=
  jsOrList (cfg.conventional_commits.bind ConventionalCommitsConfig.type_enum)
    DEFAULT_TYPE_ENUM

/-- Effective component list:
`config.conventional_commits?.valid_components || DEFAULT_VALID_COMPONENTS`
(source `checkCommitsInPR` and `autoLabelPR`). -/
def effectiveValidComponents (cfg : DonkeyOpsConfig) : List String :=
  jsOrList
    (cfg.conventional_commits.bind ConventionalCommitsConfig.valid_components)
    DEFAULT_VALID_COMPONENTS

/-- Effective format template:
`config.conventional_commits?.commit_format || DEFAULT_COMMIT_FORMAT`
(source `checkCommitsInPR`). -/
def effectiveCommitFormat (cfg : DonkeyOpsConfig) : String :=
  jsOrString (cfg.conventional_commits.bind ConventionalCommitsConfig.commit_format)
    DEFAULT_COMMIT_FORMAT

/-- Commit-check enable flag: `config.conventional_commits?.enabled !== false`
(source `checkCommitsInPR`; default true). -/
def commitCheckEnabled (cfg : DonkeyOpsConfig) : Bool :=
  !((cfg.conventional_commits.bind ConventionalCommitsConfig.enabled) == some false)

/-- PR-labeling enable flag: `config.pr_labeling?.enabled !== false`
(source `autoLabelPR`; default true). -/
def prLabelingEnabled (cfg : DonkeyOpsConfig) : Bool :=
  !((cfg.pr_labeling.bind PrLabelingConfig.enabled) == some false)

/-- Result record of `validateCommitMessage` (TypeScript interface
`CommitValidationResult`); an absent `warning` is `none`. -/
structure CommitValidationResult where
  isValid : Bool
  warning : Option String
deriving DecidableEq

/-- Tail of the conventional-commit regex: `#(\d+)` immediately followed by the
end of the string (a `#` and then one or more digits). -/
def hashDigits : List Char → Bool
  | [] => false
  | c :: ds => c == '#' && !ds.isEmpty && ds.all isDigitChar

/-- Existence of a match of `\s+#\d+$` against the whole list. -/
def endMatch : List Char → Bool
  | [] => false
  | c :: cs => jsIsSpace c && (hashDigits cs || endMatch cs)

/-- Existence of a match of `(.+?)\s+#\d+$` against the whole list (the lazy
`.+?` segment cannot cross a line terminator). -/
def midMatch : List Char → Bool
  | [] => false
  | c :: cs => isDotChar c && (endMatch cs || midMatch cs)

/-- Existence of a match of `\s+(.+?)\s+#\d+$` against the whole list: the part
of the source regex that follows `):`. -/
def tailMatch : List Char → Bool
  | [] => false
  | c :: cs => jsIsSpace c && (midMatch cs || tailMatch cs)

/-- Embedding of the anchored regex
`/^([a-zA-Z\-]+)\(([^)]+)\):\s+(.+?)\s+#(\d+)$/i` from
`validateCommitMessage`: returns the first two capture groups (type and
component) when the regex matches the whole list, else `none`.  The greedy
classes `[a-zA-Z\-]+` and `[^)]+` exclude their closing delimiters, so both
captures are forced to the maximal runs and the remaining question is whether
the tail matches (the `i` flag is inert: both classes are already
case-closed). -/
def conventionalMatchL (cs : List Char) : Option (List Char × List Char) :=
  let ty := cs.takeWhile isTypeChar
  match cs.drop ty.length with
  | '(' :: r2 =>
    let comp := r2.takeWhile (fun ch => ch != ')')
    (match r2.drop comp.length with
     | ')' :: ':' :: r4 =>
       if ty.isEmpty || comp.isEmpty then none
       else if tailMatch r4 then some (ty, comp) else none
     | _ => none)
  | _ => none

/-- Generic format warning from `validateCommitMessage` (no regex match). -/
def formatWarning (typeEnum validComponents : List String)
    (commitFormat : String) : String :=
  "⚠️ **Conventional Commit Warning**\n\nThis commit doesn't follow the conventional commit format.\n\n**Expected format:** `"
    ++ commitFormat ++ "`\n\n**Valid types:** " ++ joinSep ", " typeEnum
    ++ "\n**Valid components:** " ++ joinSep ", " validComponents
    ++ "\n\nFor more information, see: https://rucio.github.io/documentation/contributing/"

/-- Warning for a matched message whose type is not recognized. -/
def invalidTypeWarning (ty : String) (typeEnum : List String) : String :=
  "⚠️ **Invalid Type Warning**\n\nType \"" ++ ty
    ++ "\" is not recognized.\n\n**Valid types:** " ++ joinSep ", " typeEnum
    ++ "\n\nFor more information, see: https://rucio.github.io/documentation/contributing/"

/-- Warning for a matched message whose component is not recognized. -/
def invalidComponentWarning (comp : String)
    (typeEnum validComponents : List String) : String :=
  "⚠️ **Invalid Component Warning**\n\nComponent \"" ++ comp
    ++ "\" is not recognized.\n\n**Valid types:** " ++ joinSep ", " typeEnum
    ++ "\n**Valid components:** " ++ joinSep ", " validComponents
    ++ "\n\nFor more information, see: https://rucio.github.io/documentation/contributing/"

/-- Embedding of the source function `validateCommitMessage`: trim, match the
conventional-commit regex, then check type and component case-insensitively
against the rule set, in that order. -/
def validateCommitMessage (commitMessage : String)
    (typeEnum validComponents : List String) (commitFormat : String) :
    CommitValidationResult :=
  match conventionalMatchL (jsTrimL commitMessage.data) with
  | none => ⟨false, some (formatWarning typeEnum validComponents commitFormat)⟩
  | some (tyL, compL) =>
    let ty : String := ⟨tyL⟩
    let comp : String := ⟨compL⟩
    if typeEnum.any (fun validType => lowerStr validType == lowerStr ty) then
      if validComponents.any
          (fun validComponent => lowerStr validComponent == lowerStr comp) then
        ⟨true, none⟩
      else ⟨false, some (invalidComponentWarning comp typeEnum validComponents)⟩
    else ⟨false, some (invalidTypeWarning ty typeEnum)⟩

/-- Embedding of the source function `detectLabelsFromTitle`: push every
component whose lowercase form occurs in the lowercase title, scanning the
component list in order. -/
def detectLabelsFromTitle (title : String) (validComponents : List String) :
    List String :=
  validComponents.foldl
    (fun acc comp =>
      if containsSeq (lowerStr title).data (lowerStr comp).data then
        acc ++ [comp]
      else acc)
    []

/-- Embedding of the source function `applyLabelsToPR` as a pure function of
the labels to apply and the PR's current label names: the result is the payload
of the single `addLabels` call, or `none` when no remote add-labels call is
issued (remote failures, which the source merely logs, are not modelled). -/
def applyLabelsToPR (labels : List String) (currentLabelNames : List String) :
    Option (List String) :=
  if labels.isEmpty then none
  else
    let newLabels := labels.filter (fun label => !(listHas currentLabelNames label))
    if 0 < newLabels.length then some newLabels else none

/-- The PR's label names after a run of `applyLabelsToPR` whose add-labels call
(if any) succeeded: GitHub appends the newly added labels. -/
def labelsAfterApply (labels : List String) (currentLabelNames : List String) :
    List String :=
  match applyLabelsToPR labels currentLabelNames with
  | none => currentLabelNames
  | some newLabels => currentLabelNames ++ newLabels

/-- A parsed slash command (TypeScript interface `SlashCommand`). -/
structure SlashCommand where
  command : String
  args : List String
deriving DecidableEq

/-- The literal token that opens a command line. -/
def donkeyToken : List Char := "/donkeyops".data

/-- Split a trimmed command line on single spaces and keep the non-empty
parts (`trimmed.split(' ').filter(part => part.length > 0)`). -/
def tokenize (line : List Char) : List (List Char) :=
  (splitOnChar ' ' line).filter (fun p => !p.isEmpty)

/-- The line loop of `parseSlashCommand`: scan the lines in order; a line whose
trimmed form starts with `/donkeyops` yields a command when it has at least two
tokens, and otherwise the loop continues with the later lines. -/
def parseLines : List (List Char) → Option SlashCommand
  | [] => none
  | line :: rest =>
    let trimmed := jsTrimL line
    if startsWithSeq trimmed donkeyToken then
      match tokenize trimmed with
      | _ :: cmd :: args => some ⟨⟨cmd⟩, args.map (fun a => (⟨a⟩ : String))⟩
      | _ => parseLines rest
    else parseLines rest

/-- Embedding of the source function `parseSlashCommand`. -/
def parseSlashCommand (body : String) : Option SlashCommand :=
  if body.data.isEmpty then none
  else if (jsTrimL body.data).isEmpty then none
  else parseLines (splitOnChar '\n' body.data)

/-- Specification-side restatement of the parser for the amended claim C2: the
first line whose trimmed form starts with `/donkeyops` AND splits (on the space
character) into at least two non-empty tokens wins; a matching line with fewer
tokens is skipped in favour of later lines. -/
def specCommandOfLine (line : List Char) : Option SlashCommand :=
  let trimmed := jsTrimL line
  if startsWithSeq trimmed donkeyToken then
    match tokenize trimmed with
    | _ :: cmd :: args => some ⟨⟨cmd⟩, args.map (fun a => (⟨a⟩ : String))⟩
    | _ => none
  else none

/-- Specification-side restatement of `parseSlashCommand` for the amended
claim C2: empty or whitespace-only input yields none; otherwise the first line
yielding a command under `specCommandOfLine` decides the result. -/
def parseSpecModel (body : String) : Option SlashCommand :=
  if body.data.isEmpty || (jsTrimL body.data).isEmpty then none
  else (splitOnChar '\n' body.data).findSome? specCommandOfLine

/-- The PR record returned by the `pulls.get` probe, reduced to the fields the
dispatcher reads. -/
structure PRInfo where
  number : Nat
  title : String
deriving DecidableEq

/-- Explicit context for one dispatch of `handleSlashCommands`: the comment
body, the repository coordinates, the issue number, and the outcomes of the
three fallible remote interactions the handler may perform (`none` models the
call throwing).  Remote mutations (comments, labels, assignees, reviews) are
modelled as succeeding, which the claims never need to distinguish. -/
structure DispatchCtx where
  commentBody : String
  owner : String
  repo : String
  issueNumber : Nat
  prProbe : Option PRInfo
  diffResult : Option String
  llmResult : Option String
deriving DecidableEq

/-- One remote side effect issued by the dispatcher: a GitHub API mutation or
an LLM generation request (`POST /api/generate`). -/
inductive GhCall where
  | createComment (body : String)
  | addLabels (labels : List String)
  | removeLabel (name : String)
  | closeIssue
  | addAssignees (users : List String)
  | removeAssignees (users : List String)
  | approveReview (body : String)
  | llmGenerate (model : String) (prompt : String)
deriving DecidableEq

/-- The code-review prompt built by `performCodeReview`. -/
def reviewPrompt (owner repo title : String) (number : Nat) (diff : String) :
    String :=
  "Review this code change and provide a concise GitHub Copilot-style code review.\n\nRepository: "
    ++ owner ++ "/" ++ repo ++ "\nPR Title: " ++ title ++ "\nPR Number: #"
    ++ toString number
    ++ "\n\nInstructions:\n- Be very concise and direct\n- Focus on specific issues, bugs, or improvements\n- Provide actionable suggestions with code examples\n- Use clear, brief explanations\n- Avoid lengthy paragraphs\n- If you find issues, suggest specific fixes\n\nCode changes:\n"
    ++ diff ++ "\n\nProvide a brief, actionable code review:"

/-- Modelled from the spec: the source file included here lacks the `summary`
dispatcher branch (only the repository's tests exercise it); per spec section
4.7 the change-summary prompt embeds repository owner/name, PR title, PR number
and the PR's unified diff. -/
def summaryPrompt (owner repo title : String) (number : Nat) (diff : String) :
    String :=
  "Summarize this pull request change for reviewers.\n\nRepository: "
    ++ owner ++ "/" ++ repo ++ "\nPR Title: " ++ title ++ "\nPR Number: #"
    ++ toString number ++ "\n\nCode changes:\n" ++ diff
    ++ "\n\nProvide a concise summary of the changes:"

/-- Modelled from the spec: the source file included here lacks the `ask`
dispatcher branch; per spec section 4.7 the question-answering prompt embeds
repository owner/name, PR title, PR number, the diff, and the user's literal
question. -/
def askPrompt (owner repo title : String) (number : Nat)
    (diff question : String) : String :=
  "Answer this question about the following pull request changes.\n\nRepository: "
    ++ owner ++ "/" ++ repo ++ "\nPR Title: " ++ title ++ "\nPR Number: #"
    ++ toString number ++ "\n\nQuestion: " ++ question ++ "\n\nCode changes:\n"
    ++ diff ++ "\n\nProvide a concise answer:"

/-- PR-only error for `review` (source string). -/
def reviewOnlyPRError : String :=
  "❌ **Error:** Code review is only available for pull requests, not issues."

/-- Modelled from the spec: PR-only error for `summary` (exact text from the
repository's tests). -/
def summaryOnlyPRError : String :=
  "❌ **Error:** PR summary is only available for pull requests, not issues."

/-- Modelled from the spec: PR-only error for `ask` (exact text from the
repository's tests). -/
def askOnlyPRError : String :=
  "❌ **Error:** Asking questions about changes is only available for pull requests, not issues."

/-- Modelled from the spec: the zero-argument error for `ask` (prefix asserted
by the repository's tests). -/
def askNoQuestionError : String :=
  "❌ **Error:** Please provide a question. Usage: `/donkeyops ask <question>`"

/-- Usage error for `label` with no argument (source string). -/
def labelUsageError : String :=
  "❌ **Error:** Please specify a label. Usage: `/donkeyops label <label>`"

/-- Usage error for `unlabel` with no argument (source string). -/
def unlabelUsageError : String :=
  "❌ **Error:** Please specify a label. Usage: `/donkeyops unlabel <label>`"

/-- Usage error for `assign` with no argument (source string). -/
def assignUsageError : String :=
  "❌ **Error:** Please specify a reviewer. Usage: `/donkeyops assign <reviewer-username>`"

/-- Usage error for `unassign` with no argument (source string). -/
def unassignUsageError : String :=
  "❌ **Error:** Please specify a reviewer. Usage: `/donkeyops unassign <reviewer-username>`"

/-- Unknown-command help comment (source string). -/
def unknownCommandHelp (cmd : String) : String :=
  "❌ **Unknown command:** `" ++ cmd
    ++ "`\n\n**Available commands:**\n- `/donkeyops label <label>` - Add a label\n- `/donkeyops unlabel <label>` - Remove a label\n- `/donkeyops close` - Close issue/PR\n- `/donkeyops assign <reviewer>` - Assign reviewer\n- `/donkeyops unassign <reviewer>` - Remove reviewer\n- `/donkeyops approve` - Approve PR\n- `/donkeyops review` - Perform AI code review"

/-- The `review` branch of the dispatcher: probe for PR-ness first; the inner
catch of the source turns a probe failure, a diff-fetch failure, or an LLM
failure into the PR-only error comment (the probe failure never reaches the
LLM). -/
def reviewBranch (ctx : DispatchCtx) : List GhCall :=
  match ctx.prProbe with
  | none => [GhCall.createComment reviewOnlyPRError]
  | some pr =>
    match ctx.diffResult with
    | none => [GhCall.createComment reviewOnlyPRError]
    | some diff =>
      let prompt := reviewPrompt ctx.owner ctx.repo pr.title pr.number diff
      match ctx.llmResult with
      | none =>
        [GhCall.llmGenerate "qwen2.5-coder" prompt,
         GhCall.createComment reviewOnlyPRError]
      | some review =>
        [GhCall.llmGenerate "qwen2.5-coder" prompt,
         GhCall.createComment ("## 🤖 Code Review by DonkeyOps Bot\n\n" ++ review)]

/-- Modelled from the spec: the `summary` dispatcher branch (absent from the
included source; spec section 4.6 row `summary`, "same pattern" as `review`).
Probe for PR-ness, fetch the diff, call the LLM, post the summary comment. -/
def summaryBranch (ctx : DispatchCtx) : List GhCall :=
  match ctx.prProbe with
  | none => [GhCall.createComment summaryOnlyPRError]
  | some pr =>
    match ctx.diffResult with
    | none => [GhCall.createComment summaryOnlyPRError]
    | some diff =>
      let prompt := summaryPrompt ctx.owner ctx.repo pr.title pr.number diff
      match ctx.llmResult with
      | none =>
        [GhCall.llmGenerate "qwen2.5-coder" prompt,
         GhCall.createComment summaryOnlyPRError]
      | some resp =>
        [GhCall.llmGenerate "qwen2.5-coder" prompt,
         GhCall.createComment ("## 📋 PR Summary\n\n" ++ resp)]

/-- Modelled from the spec: the `ask` dispatcher branch (absent from the
included source; spec section 4.6 row `ask`).  The PR probe comes first (the
repository's zero-argument test still mocks a successful probe), then the
zero-argument check, then the diff and the question prompt; the question is the
arguments rejoined with spaces. -/
def askBranch (ctx : DispatchCtx) (args : List String) : List GhCall :=
  match ctx.prProbe with
  | none => [GhCall.createComment askOnlyPRError]
  | some pr =>
    match args with
    | [] => [GhCall.createComment askNoQuestionError]
    | q :: qs =>
      let question := joinSep " " (q :: qs)
      match ctx.diffResult with
      | none => [GhCall.createComment askOnlyPRError]
      | some diff =>
        let prompt := askPrompt ctx.owner ctx.repo pr.title pr.number diff question
        match ctx.llmResult with
        | none =>
          [GhCall.llmGenerate "qwen2.5-coder" prompt,
           GhCall.createComment askOnlyPRError]
        | some answer =>
          [GhCall.llmGenerate "qwen2.5-coder" prompt,
           GhCall.createComment
             ("## 🤔 Question about PR Changes\n\n**Question:** " ++ question
               ++ "\n\n**Answer:** " ++ answer)]

/-- Embedding of the source function `handleSlashCommands` as the list of
remote calls issued for one comment event.  The `label`, `unlabel`, `close`,
`assign`, `unassign`, `approve`, `review` and unknown-command branches are
translated from src/src/index.ts; the `summary` and `ask` branches are
modelled from the spec (see `summaryBranch` and `askBranch`). -/
def handleSlashCommands (ctx : DispatchCtx) : List GhCall :=
  match parseSlashCommand ctx.commentBody with
  | none => []
  | some cmd =>
    if cmd.command = "label" then
      match cmd.args with
      | [] => [GhCall.createComment labelUsageError]
      | label :: _ => [GhCall.addLabels [label]]
    else if cmd.command = "unlabel" then
      match cmd.args with
      | [] => [GhCall.createComment unlabelUsageError]
      | labelToRemove :: _ => [GhCall.removeLabel labelToRemove]
    else if cmd.command = "close" then
      [GhCall.closeIssue]
    else if cmd.command = "assign" then
      match cmd.args with
      | [] => [GhCall.createComment assignUsageError]
      | u :: _ => [GhCall.addAssignees [stripFirstAt u]]
    else if cmd.command = "unassign" then
      match cmd.args with
      | [] => [GhCall.createComment unassignUsageError]
      | u :: _ => [GhCall.removeAssignees [stripFirstAt u]]
    else if cmd.command = "approve" then
      [GhCall.approveReview "Approved via /donkeyops approve command"]
    else if cmd.command = "review" then
      reviewBranch ctx
    else if cmd.command = "summary" then
      summaryBranch ctx
    else if cmd.command = "ask" then
      askBranch ctx cmd.args
    else
      [GhCall.createComment (unknownCommandHelp cmd.command)]

theorem startsWithSeq_nil (xs : List Char) : startsWithSeq xs [] = true := by
  cases xs <;> rfl

theorem startsWithSeq_append_self (xs ys : List Char) :
    startsWithSeq (xs ++ ys) xs = true := by
  induction xs with
  | nil => exact startsWithSeq_nil ys
  | cons a t ih => simp [startsWithSeq, ih]

theorem containsSeq_nil_sub (hay : List Char) : containsSeq hay [] = true := by
  cases hay with
  | nil => rfl
  | cons a t => simp [containsSeq, startsWithSeq_nil]

theorem startsWithSeq_extend :
    ∀ (xs ys sub : List Char), startsWithSeq xs sub = true →
      startsWithSeq (xs ++ ys) sub = true := by
  intro xs
  induction xs with
  | nil =>
    intro ys sub h
    cases sub with
    | nil => exact startsWithSeq_nil ys
    | cons b bs => simp [startsWithSeq] at h
  | cons a t ih =>
    intro ys sub h
    cases sub with
    | nil => exact startsWithSeq_nil _
    | cons b bs =>
      simp only [startsWithSeq, Bool.and_eq_true, decide_eq_true_eq] at h
      simp only [List.cons_append, startsWithSeq, Bool.and_eq_true,
        decide_eq_true_eq]
      exact ⟨h.1, ih ys bs h.2⟩

theorem containsSeq_extend (xs ys sub : List Char)
    (h : containsSeq xs sub = true) : containsSeq (xs ++ ys) sub = true := by
  induction xs with
  | nil =>
    simp only [containsSeq] at h
    have hsub : sub = [] := by
      cases sub with
      | nil => rfl
      | cons b bs => simp at h
    rw [hsub]
    exact containsSeq_nil_sub ys
  | cons a t ih =>
    simp only [containsSeq, Bool.or_eq_true] at h
    simp only [List.cons_append, containsSeq, Bool.or_eq_true]
    rcases h with h | h
    · left
      exact startsWithSeq_extend (a :: t) ys sub h
    · right
      exact ih h

theorem containsSeq_of_middle (pre mid post : List Char) :
    containsSeq (pre ++ (mid ++ post)) mid = true := by
  induction pre with
  | nil =>
    cases mid with
    | nil => simp [containsSeq_nil_sub]
    | cons m ms =>
      simp only [List.nil_append, containsSeq, Bool.or_eq_true]
      left
      exact startsWithSeq_append_self (m :: ms) post
  | cons p ps ih =>
    simp only [List.cons_append, containsSeq, Bool.or_eq_true]
    right
    exact ih

theorem listHas_iff (xs : List String) (x : String) :
    listHas xs x = true ↔ x ∈ xs := by
  simp [listHas, List.any_eq_true, beq_iff_eq]

theorem listHas_append (xs ys : List String) (x : String) :
    listHas (xs ++ ys) x = (listHas xs x || listHas ys x) := by
  simp [listHas, List.any_append]

theorem takeWhile_append_stop {p : Char → Bool} (y : Char) (hy : p y = false) :
    ∀ (xs ys : List Char), xs.all p = true → (xs ++ y :: ys).takeWhile p = xs := by
  intro xs
  induction xs with
  | nil => intro ys _; simp [List.takeWhile_cons, hy]
  | cons a t ih =>
    intro ys h
    simp only [List.all_cons, Bool.and_eq_true] at h
    simp [List.takeWhile_cons, h.1, ih ys h.2]

theorem conventionalMatchL_structured (t c r : List Char)
    (ht1 : t ≠ []) (ht2 : t.all isTypeChar = true)
    (hc1 : c ≠ []) (hc2 : c.all (fun ch => ch != ')') = true) :
    conventionalMatchL (t ++ '(' :: (c ++ ')' :: ':' :: r))
      = if tailMatch r then some (t, c) else none := by
  have h1 : (t ++ '(' :: (c ++ ')' :: ':' :: r)).takeWhile isTypeChar = t :=
    takeWhile_append_stop '(' (by decide) t _ ht2
  have h2 : (c ++ ')' :: ':' :: r).takeWhile (fun ch => ch != ')') = c :=
    takeWhile_append_stop ')' (by decide) c _ hc2
  have ht1' : t.isEmpty = false := by
    cases t with
    | nil => exact absurd rfl ht1
    | cons a b => rfl
  have hc1' : c.isEmpty = false := by
    cases c with
    | nil => exact absurd rfl hc1
    | cons a b => rfl
  simp [conventionalMatchL, h1, h2, List.drop_left, ht1', hc1']

theorem tailMatch_fixbug (bs : List Char) :
    tailMatch (' ' :: 'f' :: 'i' :: 'x' :: ' ' :: 'b' :: 'u' :: 'g' :: ' '
        :: '#' :: '1' :: '\n' :: bs)
      = (hashDigits bs || endMatch bs) := by
  simp [tailMatch, midMatch, endMatch, hashDigits, jsIsSpace, isDotChar,
        isLineTerm, isDigitChar, List.all_cons]

theorem letter_not_space {x : Char} (h : isAsciiLetter x = true) :
    jsIsSpace x = false := by
  by_contra hc
  rw [Bool.not_eq_false] at hc
  simp only [isAsciiLetter, Bool.or_eq_true, Bool.and_eq_true,
    decide_eq_true_eq] at h
  simp only [jsIsSpace, Bool.or_eq_true, Bool.and_eq_true,
    decide_eq_true_eq] at hc
  omega

theorem letter_not_digit {x : Char} (h : isAsciiLetter x = true) :
    isDigitChar x = false := by
  by_contra hc
  rw [Bool.not_eq_false] at hc
  simp only [isAsciiLetter, Bool.or_eq_true, Bool.and_eq_true,
    decide_eq_true_eq] at h
  simp only [isDigitChar, Bool.and_eq_true, decide_eq_true_eq] at hc
  omega

theorem hashDigits_no_letter {cs : List Char}
    (h : ∃ x ∈ cs, isAsciiLetter x = true) : hashDigits cs = false := by
  by_contra hc
  rw [Bool.not_eq_false] at hc
  obtain ⟨x, hx, hlet⟩ := h
  cases cs with
  | nil => cases hx
  | cons c ds =>
    simp only [hashDigits, Bool.and_eq_true, beq_iff_eq] at hc
    obtain ⟨⟨hch, _⟩, hall⟩ := hc
    rcases List.mem_cons.mp hx with h1 | h2
    · rw [h1, hch] at hlet
      exact absurd hlet (by decide)
    · have hd := List.all_eq_true.mp hall x h2
      rw [letter_not_digit hlet] at hd
      exact Bool.false_ne_true hd

theorem endMatch_no_letter {cs : List Char}
    (h : ∃ x ∈ cs, isAsciiLetter x = true) : endMatch cs = false := by
  induction cs with
  | nil => rfl
  | cons c ds ih =>
    obtain ⟨x, hx, hlet⟩ := h
    rcases List.mem_cons.mp hx with h1 | h2
    · rw [h1] at hlet
      simp [endMatch, letter_not_space hlet]
    · simp [endMatch, hashDigits_no_letter ⟨x, h2, hlet⟩, ih ⟨x, h2, hlet⟩]

theorem typeChar_not_space {x : Char} (h : isTypeChar x = true) :
    jsIsSpace x = false := by
  by_contra hc
  rw [Bool.not_eq_false] at hc
  simp only [isTypeChar, isAsciiLetter, Bool.or_eq_true, Bool.and_eq_true,
    decide_eq_true_eq] at h
  simp only [jsIsSpace, Bool.or_eq_true, Bool.and_eq_true,
    decide_eq_true_eq] at hc
  omega

theorem dropWhile_ne_nil_of_exists {p : Char → Bool} :
    ∀ (l : List Char), (∃ x ∈ l, p x = false) → l.dropWhile p ≠ [] := by
  intro l
  induction l with
  | nil => rintro ⟨x, hx, _⟩; cases hx
  | cons a t ih =>
    rintro ⟨x, hx, hpx⟩
    by_cases hp : p a
    · simp only [List.dropWhile, hp]
      apply ih
      rcases List.mem_cons.mp hx with h1 | h2
      · rw [h1] at hpx; rw [hpx] at hp; exact absurd hp (by decide)
      · exact ⟨x, h2, hpx⟩
    · simp [List.dropWhile, hp]

theorem dropWhile_append_of_ne_nil {p : Char → Bool} :
    ∀ (xs ys : List Char), xs.dropWhile p ≠ [] →
      (xs ++ ys).dropWhile p = xs.dropWhile p ++ ys := by
  intro xs
  induction xs with
  | nil => intro ys h; exact absurd rfl h
  | cons a t ih =>
    intro ys h
    by_cases hp : p a
    · simp only [List.dropWhile, hp] at h
      simp only [List.cons_append, List.dropWhile, hp]
      exact ih ys h
    · simp [List.dropWhile, hp]

theorem trimRight_append (xs ys : List Char)
    (h : ∃ x ∈ ys, jsIsSpace x = false) :
    trimRightL (xs ++ ys) = xs ++ trimRightL ys := by
  obtain ⟨x, hx, hpx⟩ := h
  unfold trimRightL
  rw [List.reverse_append]
  rw [dropWhile_append_of_ne_nil _ _
    (dropWhile_ne_nil_of_exists _ ⟨x, List.mem_reverse.mpr hx, hpx⟩)]
  rw [List.reverse_append, List.reverse_reverse]

theorem mem_dropWhile_of_neg {p : Char → Bool} :
    ∀ (l : List Char) (x : Char), x ∈ l → p x = false → x ∈ l.dropWhile p := by
  intro l
  induction l with
  | nil => intro x hx _; cases hx
  | cons a t ih =>
    intro x hx hpx
    by_cases hp : p a
    · simp only [List.dropWhile, hp]
      rcases List.mem_cons.mp hx with h1 | h2
      · rw [h1] at hpx; rw [hpx] at hp; exact absurd hp (by decide)
      · exact ih x h2 hpx
    · simp only [List.dropWhile, hp]
      exact hx

theorem mem_trimRight (l : List Char) (x : Char) (hx : x ∈ l)
    (hpx : jsIsSpace x = false) : x ∈ trimRightL l := by
  unfold trimRightL
  exact List.mem_reverse.mpr
    (mem_dropWhile_of_neg _ x (List.mem_reverse.mpr hx) hpx)

theorem foldl_push_filter (p : String → Bool) :
    ∀ (l : List String) (acc : List String),
      l.foldl (fun acc a => if p a then acc ++ [a] else acc) acc
        = acc ++ l.filter p := by
  intro l
  induction l with
  | nil => intro acc; simp
  | cons a t ih =>
    intro acc
    by_cases h : p a <;> simp [h, ih, List.filter_cons]

theorem parseLines_eq_findSome (ls : List (List Char)) :
    parseLines ls = ls.findSome? specCommandOfLine := by
  induction ls with
  | nil => rfl
  | cons l t ih =>
    rw [List.findSome?_cons]
    by_cases hs : startsWithSeq (jsTrimL l) donkeyToken
    · cases htok : tokenize (jsTrimL l) with
      | nil =>
        have h1 : specCommandOfLine l = none := by
          simp only [specCommandOfLine]
          rw [if_pos hs, htok]
        have h2 : parseLines (l :: t) = parseLines t := by
          simp only [parseLines]
          rw [if_pos hs, htok]
        rw [h2, h1, ih]
      | cons p0 rest =>
        cases rest with
        | nil =>
          have h1 : specCommandOfLine l = none := by
            simp only [specCommandOfLine]
            rw [if_pos hs, htok]
          have h2 : parseLines (l :: t) = parseLines t := by
            simp only [parseLines]
            rw [if_pos hs, htok]
          rw [h2, h1, ih]
        | cons p1 rest2 =>
          have h1 : specCommandOfLine l
              = some ⟨⟨p1⟩, rest2.map (fun a => (⟨a⟩ : String))⟩ := by
            simp only [specCommandOfLine]
            rw [if_pos hs, htok]
          have h2 : parseLines (l :: t)
              = some ⟨⟨p1⟩, rest2.map (fun a => (⟨a⟩ : String))⟩ := by
            simp only [parseLines]
            rw [if_pos hs, htok]
          rw [h2, h1]
    · have h1 : specCommandOfLine l = none := by
        simp only [specCommandOfLine]
        rw [if_neg hs]
      have h2 : parseLines (l :: t) = parseLines t := by
        simp only [parseLines]
        rw [if_neg hs]
      rw [h2, h1, ih]

theorem applyLabels_some_inv (labels current newLabels : List String)
    (h : applyLabelsToPR labels current = some newLabels) :
    newLabels = labels.filter (fun label => !(listHas current label))
    ∧ 0 < newLabels.length := by
  unfold applyLabelsToPR at h
  split at h
  · exact Option.noConfusion h
  · dsimp only at h
    split at h
    next hl =>
      injection h with h'
      exact ⟨h'.symm, h'.symm ▸ hl⟩
    next hl => exact Option.noConfusion h

/-- C2, counterexample: a bare `/donkeyops` line does not stop the scan — the
later `/donkeyops label Core` line is consulted and wins, so the result is not
`none` and does not come from the first `/donkeyops`-prefixed line. -/
theorem parseSlashCommand_first_line_counterexample :
    parseSlashCommand "/donkeyops\n/donkeyops label Core"
      = some ⟨"label", ["Core"]⟩
    ∧ parseSlashCommand "/donkeyops\n/donkeyops label Core" ≠ none := by
  constructor
  · decide
  · decide

/-- C2 (amended): `parseSlashCommand` returns the command of the first line
whose trimmed form starts with `/donkeyops` and splits (on the space
character) into at least two non-empty tokens — a `/donkeyops` line with fewer
tokens is skipped in favour of later lines; empty or whitespace-only input,
and input with no such line, yield none; the second token of the winning line
is the command name and the remaining tokens are the arguments. -/
theorem parseSlashCommand_eq_specModel (body : String) :
    parseSlashCommand body = parseSpecModel body := by
  unfold parseSlashCommand parseSpecModel
  by_cases h1 : body.data.isEmpty
  · simp [h1]
  · by_cases h2 : (jsTrimL body.data).isEmpty
    · simp [h1, h2]
    · simp [h1, h2, parseLines_eq_findSome]

/-- C3, counterexample: a present-but-empty `commit_format` string is not kept
as-is — JS `||` treats the empty string as falsy, so the built-in default is
substituted. -/
theorem commitFormat_present_empty_defaulted_counterexample :
    effectiveCommitFormat ⟨some ⟨none, none, none, some "", none⟩, none⟩
      = DEFAULT_COMMIT_FORMAT
    ∧ DEFAULT_COMMIT_FORMAT ≠ "" := by
  constructor
  · rfl
  · decide

/-- C3 (amended): each RuleSet field defaults independently; the two list
fields default exactly when absent (a present-but-empty list is kept, meaning
"no valid values"); the `commit_format` string defaults when absent or when
present but empty (JS falsiness); each enable flag is false exactly when the
parsed config carries an explicit `false`. -/
theorem ruleSet_fieldwise_defaulting (cfg : DonkeyOpsConfig) :
    (∀ l, cfg.conventional_commits.bind ConventionalCommitsConfig.type_enum
        = some l → effectiveTypeEnum cfg = l)
    ∧ (cfg.conventional_commits.bind ConventionalCommitsConfig.type_enum = none →
        effectiveTypeEnum cfg = DEFAULT_TYPE_ENUM)
    ∧ (∀ l, cfg.conventional_commits.bind ConventionalCommitsConfig.valid_components
        = some l → effectiveValidComponents cfg = l)
    ∧ (cfg.conventional_commits.bind ConventionalCommitsConfig.valid_components = none →
        effectiveValidComponents cfg = DEFAULT_VALID_COMPONENTS)
    ∧ (∀ s, cfg.conventional_commits.bind ConventionalCommitsConfig.commit_format
        = some s → s ≠ "" → effectiveCommitFormat cfg = s)
    ∧ (cfg.conventional_commits.bind ConventionalCommitsConfig.commit_format = none →
        effectiveCommitFormat cfg = DEFAULT_COMMIT_FORMAT)
    ∧ (cfg.conventional_commits.bind ConventionalCommitsConfig.commit_format = some "" →
        effectiveCommitFormat cfg = DEFAULT_COMMIT_FORMAT)
    ∧ (commitCheckEnabled cfg = false ↔
        cfg.conventional_commits.bind ConventionalCommitsConfig.enabled = some false)
    ∧ (prLabelingEnabled cfg = false ↔
        cfg.pr_labeling.bind PrLabelingConfig.enabled = some false) := by
  refine ⟨?_, ?_, ?_, ?_, ?_, ?_, ?_, ?_, ?_⟩
  · intro l h; simp [effectiveTypeEnum, jsOrList, h]
  · intro h; simp [effectiveTypeEnum, jsOrList, h]
  · intro l h; simp [effectiveValidComponents, jsOrList, h]
  · intro h; simp [effectiveValidComponents, jsOrList, h]
  · intro s h hne; simp [effectiveCommitFormat, jsOrString, h, hne]
  · intro h; simp [effectiveCommitFormat, jsOrString, h]
  · intro h; simp [effectiveCommitFormat, jsOrString, h]
  · simp [commitCheckEnabled]
  · simp [prLabelingEnabled]

/-- Witness for C3: a config that sets both lists empty, the format to `"x"`,
and both enable flags to false is honoured field by field, and an absent
config yields the default format. -/
theorem ruleSet_fieldwise_defaulting_witness :
    effectiveTypeEnum ⟨some ⟨some [], some [], none, some "x", some false⟩,
        some ⟨some false⟩⟩ = []
    ∧ effectiveValidComponents ⟨some ⟨some [], some [], none, some "x", some false⟩,
        some ⟨some false⟩⟩ = []
    ∧ effectiveCommitFormat ⟨some ⟨some [], some [], none, some "x", some false⟩,
        some ⟨some false⟩⟩ = "x"
    ∧ effectiveCommitFormat ⟨none, none⟩ = DEFAULT_COMMIT_FORMAT
    ∧ commitCheckEnabled ⟨some ⟨some [], some [], none, some "x", some false⟩,
        some ⟨some false⟩⟩ = false
    ∧ prLabelingEnabled ⟨some ⟨some [], some [], none, some "x", some false⟩,
        some ⟨some false⟩⟩ = false :=
  ⟨(ruleSet_fieldwise_defaulting _).1 [] rfl,
   (ruleSet_fieldwise_defaulting _).2.2.1 [] rfl,
   (ruleSet_fieldwise_defaulting _).2.2.2.2.1 "x" rfl (by decide),
   (ruleSet_fieldwise_defaulting _).2.2.2.2.2.1 rfl,
   (ruleSet_fieldwise_defaulting _).2.2.2.2.2.2.2.1.mpr rfl,
   (ruleSet_fieldwise_defaulting _).2.2.2.2.2.2.2.2.mpr rfl⟩

/-- C4: every message whose trimmed form matches the structural pattern
`type(component): text #N`, with a type allowed case-insensitively and a
component allowed case-insensitively, is reported valid with no warning. -/
theorem validate_valid_of_allowed (msg : String)
    (typeEnum validComponents : List String) (commitFormat : String)
    (tyL compL : List Char)
    (hm : conventionalMatchL (jsTrimL msg.data) = some (tyL, compL))
    (ht : typeEnum.any (fun v => lowerStr v == lowerStr ⟨tyL⟩) = true)
    (hc : validComponents.any (fun v => lowerStr v == lowerStr ⟨compL⟩) = true) :
    validateCommitMessage msg typeEnum validComponents commitFormat
      = ⟨true, none⟩ := by
  unfold validateCommitMessage
  rw [hm]
  simp [ht, hc]

/-- Witness for C4 at `feat(Core): fix bug #1` under the default rule set. -/
theorem validate_valid_of_allowed_witness :
    validateCommitMessage "feat(Core): fix bug #1" DEFAULT_TYPE_ENUM
      DEFAULT_VALID_COMPONENTS DEFAULT_COMMIT_FORMAT = ⟨true, none⟩ :=
  validate_valid_of_allowed "feat(Core): fix bug #1" DEFAULT_TYPE_ENUM
    DEFAULT_VALID_COMPONENTS DEFAULT_COMMIT_FORMAT
    ['f', 'e', 'a', 't'] ['C', 'o', 'r', 'e']
    (by decide) (by decide) (by decide)

/-- C5: for a structurally matched message, an unrecognized type yields the
Invalid Type warning naming the offending type (the component is never
consulted); a recognized type with an unrecognized component yields the
Invalid Component warning naming the offending component — so at most one of
the two warnings is produced. -/
theorem validate_warning_precedence (msg : String)
    (typeEnum validComponents : List String) (commitFormat : String)
    (tyL compL : List Char)
    (hm : conventionalMatchL (jsTrimL msg.data) = some (tyL, compL)) :
    (typeEnum.any (fun v => lowerStr v == lowerStr ⟨tyL⟩) = false →
       validateCommitMessage msg typeEnum validComponents commitFormat
         = ⟨false, some (invalidTypeWarning ⟨tyL⟩ typeEnum)⟩
       ∧ containsSeq (invalidTypeWarning ⟨tyL⟩ typeEnum).data
           ("Invalid Type Warning").data = true
       ∧ containsSeq (invalidTypeWarning ⟨tyL⟩ typeEnum).data tyL = true)
    ∧ (typeEnum.any (fun v => lowerStr v == lowerStr ⟨tyL⟩) = true →
       validComponents.any (fun v => lowerStr v == lowerStr ⟨compL⟩) = false →
       validateCommitMessage msg typeEnum validComponents commitFormat
         = ⟨false, some (invalidComponentWarning ⟨compL⟩ typeEnum validComponents)⟩
       ∧ containsSeq (invalidComponentWarning ⟨compL⟩ typeEnum validComponents).data
           ("Invalid Component Warning").data = true
       ∧ containsSeq (invalidComponentWarning ⟨compL⟩ typeEnum validComponents).data
           compL = true) := by
  constructor
  · intro ht
    refine ⟨?_, ?_, ?_⟩
    · unfold validateCommitMessage
      rw [hm]
      simp [ht]
    · simp only [invalidTypeWarning, String.data_append, List.append_assoc]
      exact containsSeq_extend _ _ _ (by decide)
    · simp only [invalidTypeWarning, String.data_append, List.append_assoc]
      exact containsSeq_of_middle _ _ _
  · intro ht hc
    refine ⟨?_, ?_, ?_⟩
    · unfold validateCommitMessage
      rw [hm]
      simp [ht, hc]
    · simp only [invalidComponentWarning, String.data_append, List.append_assoc]
      exact containsSeq_extend _ _ _ (by decide)
    · simp only [invalidComponentWarning, String.data_append, List.append_assoc]
      exact containsSeq_of_middle _ _ _

/-- Witness for C5: an unknown type and an unknown component under the default
rule set, at the spec's own fixtures. -/
theorem validate_warning_precedence_witness :
    validateCommitMessage "nosuchtype(Core): x #1" DEFAULT_TYPE_ENUM
      DEFAULT_VALID_COMPONENTS DEFAULT_COMMIT_FORMAT
      = ⟨false, some (invalidTypeWarning
          ⟨['n','o','s','u','c','h','t','y','p','e']⟩ DEFAULT_TYPE_ENUM)⟩
    ∧ validateCommitMessage "feat(UnknownThing): x #1" DEFAULT_TYPE_ENUM
        DEFAULT_VALID_COMPONENTS DEFAULT_COMMIT_FORMAT
        = ⟨false, some (invalidComponentWarning
            ⟨['U','n','k','n','o','w','n','T','h','i','n','g']⟩
            DEFAULT_TYPE_ENUM DEFAULT_VALID_COMPONENTS)⟩ :=
  ⟨((validate_warning_precedence "nosuchtype(Core): x #1" DEFAULT_TYPE_ENUM
      DEFAULT_VALID_COMPONENTS DEFAULT_COMMIT_FORMAT
      ['n','o','s','u','c','h','t','y','p','e'] ['C','o','r','e']
      (by decide)).1 (by decide)).1,
   ((validate_warning_precedence "feat(UnknownThing): x #1" DEFAULT_TYPE_ENUM
      DEFAULT_VALID_COMPONENTS DEFAULT_COMMIT_FORMAT
      ['f','e','a','t'] ['U','n','k','n','o','w','n','T','h','i','n','g']
      (by decide)).2 (by decide) (by decide)).1⟩

/-- C6: the label applier is idempotent — an empty list issues no call; a
successful call carries exactly the labels not already present (and only when
that difference is non-empty, never a label already on the PR); and re-applying
the same list after a successful application is a no-op. -/
theorem applyLabels_idempotent :
    (∀ current, applyLabelsToPR [] current = none)
    ∧ (∀ labels current newLabels,
        applyLabelsToPR labels current = some newLabels →
        newLabels = labels.filter (fun label => !(listHas current label))
        ∧ newLabels ≠ []
        ∧ ∀ l, l ∈ current → l ∉ newLabels)
    ∧ (∀ labels current,
        applyLabelsToPR labels (labelsAfterApply labels current) = none) := by
  refine ⟨?_, ?_, ?_⟩
  · intro current; rfl
  · intro labels current newLabels h
    obtain ⟨hfil, hpos⟩ := applyLabels_some_inv labels current newLabels h
    refine ⟨hfil, List.length_pos.mp hpos, ?_⟩
    intro l hlc hln
    rw [hfil] at hln
    have hpred := (List.mem_filter.mp hln).2
    rw [Bool.not_eq_true'] at hpred
    rw [(listHas_iff current l).mpr hlc] at hpred
    exact absurd hpred (by decide)
  · intro labels current
    cases hcall : applyLabelsToPR labels current with
    | none =>
      have hAfter : labelsAfterApply labels current = current := by
        simp [labelsAfterApply, hcall]
      rw [hAfter, hcall]
    | some nl =>
      have hAfter : labelsAfterApply labels current = current ++ nl := by
        simp [labelsAfterApply, hcall]
      rw [hAfter]
      obtain ⟨hfil, hpos⟩ := applyLabels_some_inv labels current nl hcall
      cases labels with
      | nil => rfl
      | cons a as =>
        have hfilnil : (a :: as).filter
            (fun label => !(listHas (current ++ nl) label)) = [] := by
          rw [List.filter_eq_nil_iff]
          intro l hl
          have hmem : listHas (current ++ nl) l = true := by
            rw [listHas_append]
            by_cases hcur : listHas current l = true
            · simp [hcur]
            · have hmemnl : l ∈ nl := by
                rw [hfil]
                refine List.mem_filter.mpr ⟨hl, ?_⟩
                rw [Bool.not_eq_true']
                cases hv : listHas current l with
                | false => rfl
                | true => exact absurd hv hcur
              simp [(listHas_iff nl l).mpr hmemnl]
          simp [hmem]
        unfold applyLabelsToPR
        rw [if_neg (by simp)]
        rw [hfilnil]
        rfl

/-- Witness for C6: applying `["Core"]` to a PR with no labels issues the call
with exactly `["Core"]`, and re-applying after success is a no-op. -/
theorem applyLabels_idempotent_witness :
    applyLabelsToPR [] ["x"] = none
    ∧ ((["Core"] : List String)
          = (["Core"] : List String).filter (fun label => !(listHas [] label))
        ∧ (["Core"] : List String) ≠ []
        ∧ ∀ l, l ∈ ([] : List String) → l ∉ (["Core"] : List String))
    ∧ applyLabelsToPR ["Core"] (labelsAfterApply ["Core"] []) = none :=
  ⟨applyLabels_idempotent.1 ["x"],
   applyLabels_idempotent.2.1 ["Core"] [] ["Core"] rfl,
   applyLabels_idempotent.2.2 ["Core"] []⟩

/-- C7: `detectLabelsFromTitle` returns exactly the allowed components whose
lowercase form occurs in the lowercase title, in allowed-list order and
casing; in particular the default component `Core & Internals` is detected in
the title `Add Core & Internals support`. -/
theorem detectLabels_order_and_core :
    (∀ (title : String) (validComponents : List String),
       detectLabelsFromTitle title validComponents
         = validComponents.filter
             (fun comp => containsSeq (lowerStr title).data (lowerStr comp).data))
    ∧ "Core & Internals"
        ∈ detectLabelsFromTitle "Add Core & Internals support"
            DEFAULT_VALID_COMPONENTS := by
  constructor
  · intro title validComponents
    unfold detectLabelsFromTitle
    rw [foldl_push_filter
      (fun comp => containsSeq (lowerStr title).data (lowerStr comp).data)
      validComponents []]
    simp
  · decide

/-- C1: with the target a pull request (successful probe), a `summary` command
generates the change-summary prompt, calls the LLM once and posts the summary;
an `ask` command with at least one argument builds the question-answering
prompt over the diff with the arguments rejoined with spaces as the question
and posts the answer; an `ask` command with no arguments posts the
"provide a question" error comment. -/
theorem summary_ask_dispatch :
    (∀ (ctx : DispatchCtx) (pr : PRInfo) (d resp : String) (args : List String),
       parseSlashCommand ctx.commentBody = some ⟨"summary", args⟩ →
       ctx.prProbe = some pr → ctx.diffResult = some d →
       ctx.llmResult = some resp →
       handleSlashCommands ctx
         = [GhCall.llmGenerate "qwen2.5-coder"
              (summaryPrompt ctx.owner ctx.repo pr.title pr.number d),
            GhCall.createComment ("## 📋 PR Summary\n\n" ++ resp)])
    ∧ (∀ (ctx : DispatchCtx) (pr : PRInfo) (d resp q : String)
         (qs : List String),
       parseSlashCommand ctx.commentBody = some ⟨"ask", q :: qs⟩ →
       ctx.prProbe = some pr → ctx.diffResult = some d →
       ctx.llmResult = some resp →
       handleSlashCommands ctx
         = [GhCall.llmGenerate "qwen2.5-coder"
              (askPrompt ctx.owner ctx.repo pr.title pr.number d
                (joinSep " " (q :: qs))),
            GhCall.createComment
              ("## 🤔 Question about PR Changes\n\n**Question:** "
                ++ joinSep " " (q :: qs) ++ "\n\n**Answer:** " ++ resp)])
    ∧ (∀ (ctx : DispatchCtx) (pr : PRInfo),
       parseSlashCommand ctx.commentBody = some ⟨"ask", []⟩ →
       ctx.prProbe = some pr →
       handleSlashCommands ctx = [GhCall.createComment askNoQuestionError]) := by
  refine ⟨?_, ?_, ?_⟩
  · intro ctx pr d resp args h hp hd hl
    unfold handleSlashCommands
    rw [h]
    simp [summaryBranch, hp, hd, hl]
  · intro ctx pr d resp q qs h hp hd hl
    unfold handleSlashCommands
    rw [h]
    simp [askBranch, hp, hd, hl]
  · intro ctx pr h hp
    unfold handleSlashCommands
    rw [h]
    simp [askBranch, hp]

/-- Witness for C1: concrete contexts for a PR `summary`, an `ask` with a
question, and an `ask` without one. -/
theorem summary_ask_dispatch_witness :
    handleSlashCommands ⟨"/donkeyops summary", "o", "r", 1, some ⟨1, "T"⟩,
        some "D", some "R"⟩
      = [GhCall.llmGenerate "qwen2.5-coder" (summaryPrompt "o" "r" "T" 1 "D"),
         GhCall.createComment ("## 📋 PR Summary\n\n" ++ "R")]
    ∧ handleSlashCommands ⟨"/donkeyops ask what changed", "o", "r", 1,
        some ⟨1, "T"⟩, some "D", some "A"⟩
      = [GhCall.llmGenerate "qwen2.5-coder"
           (askPrompt "o" "r" "T" 1 "D" (joinSep " " ["what", "changed"])),
         GhCall.createComment
           ("## 🤔 Question about PR Changes\n\n**Question:** "
             ++ joinSep " " ["what", "changed"] ++ "\n\n**Answer:** " ++ "A")]
    ∧ handleSlashCommands ⟨"/donkeyops ask", "o", "r", 1, some ⟨1, "T"⟩,
        some "D", some "A"⟩
      = [GhCall.createComment askNoQuestionError] :=
  ⟨summary_ask_dispatch.1 _ ⟨1, "T"⟩ "D" "R" [] (by decide) rfl rfl rfl,
   summary_ask_dispatch.2.1 _ ⟨1, "T"⟩ "D" "A" "what" ["changed"]
     (by decide) rfl rfl rfl,
   summary_ask_dispatch.2.2 _ ⟨1, "T"⟩ (by decide) rfl⟩

/-- C8: when the PR-details probe fails (plain issue), each of `review`,
`summary` and `ask` posts its own "only available for pull requests" error
comment and issues no LLM call, regardless of the webhook event shape (the
other context fields are unconstrained). -/
theorem pr_only_commands_on_issue :
    (∀ (ctx : DispatchCtx) (args : List String),
       parseSlashCommand ctx.commentBody = some ⟨"review", args⟩ →
       ctx.prProbe = none →
       handleSlashCommands ctx = [GhCall.createComment reviewOnlyPRError]
       ∧ ∀ m p, GhCall.llmGenerate m p ∉ handleSlashCommands ctx)
    ∧ (∀ (ctx : DispatchCtx) (args : List String),
       parseSlashCommand ctx.commentBody = some ⟨"summary", args⟩ →
       ctx.prProbe = none →
       handleSlashCommands ctx = [GhCall.createComment summaryOnlyPRError]
       ∧ ∀ m p, GhCall.llmGenerate m p ∉ handleSlashCommands ctx)
    ∧ (∀ (ctx : DispatchCtx) (args : List String),
       parseSlashCommand ctx.commentBody = some ⟨"ask", args⟩ →
       ctx.prProbe = none →
       handleSlashCommands ctx = [GhCall.createComment askOnlyPRError]
       ∧ ∀ m p, GhCall.llmGenerate m p ∉ handleSlashCommands ctx) := by
  refine ⟨?_, ?_, ?_⟩
  · intro ctx args h hp
    have he : handleSlashCommands ctx = [GhCall.createComment reviewOnlyPRError] := by
      unfold handleSlashCommands
      rw [h]
      simp [reviewBranch, hp]
    refine ⟨he, ?_⟩
    intro m p
    rw [he]
    simp
  · intro ctx args h hp
    have he : handleSlashCommands ctx = [GhCall.createComment summaryOnlyPRError] := by
      unfold handleSlashCommands
      rw [h]
      simp [summaryBranch, hp]
    refine ⟨he, ?_⟩
    intro m p
    rw [he]
    simp
  · intro ctx args h hp
    have he : handleSlashCommands ctx = [GhCall.createComment askOnlyPRError] := by
      unfold handleSlashCommands
      rw [h]
      simp [askBranch, hp]
    refine ⟨he, ?_⟩
    intro m p
    rw [he]
    simp

/-- Witness for C8: concrete non-PR contexts for the three commands. -/
theorem pr_only_commands_on_issue_witness :
    (handleSlashCommands ⟨"/donkeyops review", "o", "r", 1, none, some "D", some "R"⟩
       = [GhCall.createComment reviewOnlyPRError]
     ∧ ∀ m p, GhCall.llmGenerate m p
         ∉ handleSlashCommands ⟨"/donkeyops review", "o", "r", 1, none, some "D", some "R"⟩)
    ∧ (handleSlashCommands ⟨"/donkeyops summary", "o", "r", 1, none, some "D", some "R"⟩
       = [GhCall.createComment summaryOnlyPRError]
     ∧ ∀ m p, GhCall.llmGenerate m p
         ∉ handleSlashCommands ⟨"/donkeyops summary", "o", "r", 1, none, some "D", some "R"⟩)
    ∧ (handleSlashCommands ⟨"/donkeyops ask what", "o", "r", 1, none, some "D", some "R"⟩
       = [GhCall.createComment askOnlyPRError]
     ∧ ∀ m p, GhCall.llmGenerate m p
         ∉ handleSlashCommands ⟨"/donkeyops ask what", "o", "r", 1, none, some "D", some "R"⟩) :=
  ⟨pr_only_commands_on_issue.1 _ [] (by decide) rfl,
   pr_only_commands_on_issue.2.1 _ [] (by decide) rfl,
   pr_only_commands_on_issue.2.2 _ ["what"] (by decide) rfl⟩

/-- C9, counterexample: `assign a@b` sends `ab` — the `@` removed is the first
occurrence anywhere, not only a leading one, so an inner `@` is not
preserved as the claim requires. -/
theorem assign_inner_at_counterexample :
    handleSlashCommands ⟨"/donkeyops assign a@b", "o", "r", 1, none, none, none⟩
      = [GhCall.addAssignees ["ab"]]
    ∧ handleSlashCommands ⟨"/donkeyops assign a@b", "o", "r", 1, none, none, none⟩
      ≠ [GhCall.addAssignees ["a@b"]] := by
  constructor
  · decide
  · decide

/-- C9 (amended): for `assign` and `unassign` with at least one argument, the
username sent equals the first argument with its first `@` occurrence
(wherever it is) removed when one is present, and unchanged when the argument
contains no `@`; in particular a leading `@` is stripped. -/
theorem assign_strips_first_at :
    (∀ (ctx : DispatchCtx) (u : String) (rest : List String),
       parseSlashCommand ctx.commentBody = some ⟨"assign", u :: rest⟩ →
       handleSlashCommands ctx = [GhCall.addAssignees [stripFirstAt u]])
    ∧ (∀ (ctx : DispatchCtx) (u : String) (rest : List String),
       parseSlashCommand ctx.commentBody = some ⟨"unassign", u :: rest⟩ →
       handleSlashCommands ctx = [GhCall.removeAssignees [stripFirstAt u]])
    ∧ (∀ u : String, '@' ∉ u.data → stripFirstAt u = u)
    ∧ (∀ cs : List Char, stripFirstAt ⟨'@' :: cs⟩ = ⟨cs⟩) := by
  refine ⟨?_, ?_, ?_, ?_⟩
  · intro ctx u rest h
    unfold handleSlashCommands
    rw [h]
    simp
  · intro ctx u rest h
    unfold handleSlashCommands
    rw [h]
    simp
  · have key : ∀ (l : List Char), '@' ∉ l → removeFirstOcc '@' l = l := by
      intro l
      induction l with
      | nil => intro _; rfl
      | cons a t ih =>
        intro hl
        rw [List.mem_cons, not_or] at hl
        simp only [removeFirstOcc]
        rw [if_neg (fun he => hl.1 he.symm), ih hl.2]
    intro u hu
    show (⟨removeFirstOcc '@' u.data⟩ : String) = u
    rw [key u.data hu]
  · intro cs
    simp [stripFirstAt, removeFirstOcc]

/-- Witness for C9: a leading `@` is stripped, and a name without `@` passes
through unchanged. -/
theorem assign_strips_first_at_witness :
    handleSlashCommands ⟨"/donkeyops assign @alice", "o", "r", 1, none, none, none⟩
      = [GhCall.addAssignees [stripFirstAt "@alice"]]
    ∧ handleSlashCommands ⟨"/donkeyops unassign bob", "o", "r", 1, none, none, none⟩
      = [GhCall.removeAssignees [stripFirstAt "bob"]]
    ∧ stripFirstAt "bob" = "bob"
    ∧ stripFirstAt ⟨'@' :: "alice".data⟩ = "alice" :=
  ⟨assign_strips_first_at.1 _ "@alice" [] (by decide),
   assign_strips_first_at.2.1 _ "bob" [] (by decide),
   assign_strips_first_at.2.2.1 "bob" (by decide),
   assign_strips_first_at.2.2.2 "alice".data⟩

/-- C10: `validateCommitMessage` judges the entire message, not only its
subject line — for any allowed type and component, a message made of the
well-formed subject `t(c): fix bug #1`, a newline, and a further body
containing at least one ASCII letter is invalid with the generic format
warning: the `.+?` message segment cannot cross the newline and everything
after it must be whitespace followed by a final `#`-digits run. -/
theorem multiline_message_invalid
    (t c b : String) (typeEnum validComponents : List String)
    (commitFormat : String)
    (ht1 : t.data ≠ []) (ht2 : t.data.all isTypeChar = true)
    (hta : typeEnum.any (fun v => lowerStr v == lowerStr t) = true)
    (hc1 : c.data ≠ []) (hc2 : c.data.all (fun ch => ch != ')') = true)
    (hca : validComponents.any (fun v => lowerStr v == lowerStr c) = true)
    (hb : ∃ x ∈ b.data, isAsciiLetter x = true) :
    validateCommitMessage (t ++ "(" ++ c ++ "): fix bug #1\n" ++ b)
        typeEnum validComponents commitFormat
      = ⟨false, some (formatWarning typeEnum validComponents commitFormat)⟩ := by
  obtain ⟨x, hxb, hxl⟩ := hb
  have e1 : ("(" : String).data = ['('] := rfl
  have e2 : ("): fix bug #1\n" : String).data
      = [')', ':', ' ', 'f', 'i', 'x', ' ', 'b', 'u', 'g', ' ', '#', '1', '\n'] := rfl
  have hdata : (t ++ "(" ++ c ++ "): fix bug #1\n" ++ b).data
      = t.data ++ '(' :: (c.data ++ ')' :: ':' ::
          ([' ', 'f', 'i', 'x', ' ', 'b', 'u', 'g', ' ', '#', '1', '\n']
            ++ b.data)) := by
    simp [String.data_append, e1, e2]
  have hxs : jsIsSpace x = false := letter_not_space hxl
  have hxmem : x ∈ trimRightL b.data := mem_trimRight _ _ hxb hxs
  obtain ⟨th, tt, htt⟩ : ∃ th tt, t.data = th :: tt := by
    cases hcase : t.data with
    | nil => exact absurd hcase ht1
    | cons a l => exact ⟨a, l, rfl⟩
  have hth : isTypeChar th = true :=
    List.all_eq_true.mp ht2 th (by rw [htt]; exact List.mem_cons_self th tt)
  have hthns : jsIsSpace th = false := typeChar_not_space hth
  have hregroup : t.data ++ '(' :: (c.data ++ ')' :: ':' ::
        ([' ', 'f', 'i', 'x', ' ', 'b', 'u', 'g', ' ', '#', '1', '\n'] ++ b.data))
      = (t.data ++ '(' :: (c.data ++ ')' :: ':' ::
          [' ', 'f', 'i', 'x', ' ', 'b', 'u', 'g', ' ', '#', '1', '\n'])) ++ b.data := by
    simp
  have htrim : jsTrimL (t ++ "(" ++ c ++ "): fix bug #1\n" ++ b).data
      = t.data ++ '(' :: (c.data ++ ')' :: ':' ::
          ([' ', 'f', 'i', 'x', ' ', 'b', 'u', 'g', ' ', '#', '1', '\n']
            ++ trimRightL b.data)) := by
    rw [hdata]
    unfold jsTrimL
    rw [hregroup]
    have hdrop : ((t.data ++ '(' :: (c.data ++ ')' :: ':' ::
          [' ', 'f', 'i', 'x', ' ', 'b', 'u', 'g', ' ', '#', '1', '\n']))
          ++ b.data).dropWhile jsIsSpace
        = (t.data ++ '(' :: (c.data ++ ')' :: ':' ::
          [' ', 'f', 'i', 'x', ' ', 'b', 'u', 'g', ' ', '#', '1', '\n']))
          ++ b.data := by
      rw [htt]
      simp only [List.cons_append]
      simp [List.dropWhile, hthns]
    rw [hdrop]
    rw [trimRight_append _ _ ⟨x, hxb, hxs⟩]
    simp
  unfold validateCommitMessage
  rw [htrim]
  rw [show t.data ++ '(' :: (c.data ++ ')' :: ':' ::
        ([' ', 'f', 'i', 'x', ' ', 'b', 'u', 'g', ' ', '#', '1', '\n']
          ++ trimRightL b.data))
      = t.data ++ '(' :: (c.data ++ ')' :: ':' ::
        (' ' :: 'f' :: 'i' :: 'x' :: ' ' :: 'b' :: 'u' :: 'g' :: ' ' :: '#'
          :: '1' :: '\n' :: trimRightL b.data)) from by simp]
  rw [conventionalMatchL_structured t.data c.data _ ht1 ht2 hc1 hc2]
  rw [tailMatch_fixbug]
  rw [hashDigits_no_letter ⟨x, hxmem, hxl⟩, endMatch_no_letter ⟨x, hxmem, hxl⟩]
  rfl

/-- Witness for C10: the default-allowed `feat`/`Core` subject with a `body`
line is rejected with the generic format warning. -/
theorem multiline_message_invalid_witness :
    validateCommitMessage ("feat" ++ "(" ++ "Core" ++ "): fix bug #1\n" ++ "body")
        DEFAULT_TYPE_ENUM DEFAULT_VALID_COMPONENTS DEFAULT_COMMIT_FORMAT
      = ⟨false, some (formatWarning DEFAULT_TYPE_ENUM DEFAULT_VALID_COMPONENTS
          DEFAULT_COMMIT_FORMAT)⟩ :=
  multiline_message_invalid "feat" "Core" "body" DEFAULT_TYPE_ENUM
    DEFAULT_VALID_COMPONENTS DEFAULT_COMMIT_FORMAT
    (by decide) (by decide) (by decide) (by decide) (by decide) (by decide)
    ⟨'b', by decide, by decide⟩
